import Mathlib

/-!
# buildlight: the NeoPixel strip controller of `main.go`

The controller state of `main.go` (the colour buffer, the embedded mutex, the
channel to the writer goroutine) is embedded as a record; every goroutine's
code is embedded as the sequence of atomic instructions it performs on that
record (mutex operations, the assignment of `np.Colors`, the send on `np.Out`),
and executions are interleavings of a caller's instructions with the
`np.Unlock()` the `reader` goroutine performs after each successful read from
the serial port.
-/

namespace Buildlight

/-! ## Data model -/

/-- Go `int` arithmetic on a 64-bit target: the two's-complement wrap of a
mathematical integer. -/
def wrapInt (x : Int) : Int := (x + 2 ^ 63) % 2 ^ 64 - 2 ^ 63

/-- The Go expression `np.leds*3`, the length `SetColors` compares against and
`New` allocates. -/
def ledBytes (leds : Int) : Int := wrapInt (leds * 3)

/-- Go `type Leds []uint8`. -/
abbrev Leds := List (Fin 256)

/-- Go `type Frame struct { Leds Leds; Delay time.Duration }`. -/
structure Frame where
  Leds : Leds
  Delay : Int
  deriving DecidableEq, Repr

/-- Go `type Anim struct { Loop int; Frames []Frame }`. -/
structure Anim where
  Loop : Int
  Frames : List Frame
  deriving DecidableEq, Repr

/-- Go `type NeoPixel struct`. `lockHeld` is the embedded `sync.RWMutex` (only
`Lock` and `Unlock` are ever called on it); `Out` is the sequence of values sent
on the unbuffered channel `np.Out` so far, oldest first, which is the sequence
the `writer` goroutine receives and writes to the serial port. The serial port
`s` is the outside world, the channel `In` is never used, and the channel `Anim`
appears as what `AnimPOST` sends and `animator` receives. -/
structure NeoPixel where
  leds : Int
  Colors : Leds
  lockHeld : Bool
  Out : List Leds
  deriving DecidableEq, Repr

/-- The atomic instructions a goroutine performs on the controller. -/
inductive Instr where
  /-- The call `np.Lock()`. -/
  | Lock
  /-- The call `np.Unlock()`. -/
  | Unlock
  /-- The assignment `np.Colors = c`. -/
  | assign (c : Leds)
  /-- The send `np.Out <- np.Colors`; the `writer` goroutine, which does nothing
  but receive from `np.Out` and write to the serial port, is taken to be ready
  to receive. -/
  | send
  /-- The call `time.Sleep(d)`. -/
  | Sleep (d : Int)
  deriving DecidableEq, Repr

/-- What one instruction does: it completes in a new state, it cannot proceed
yet (the goroutine stays suspended in `Lock`), or the Go runtime aborts the
process. -/
inductive Outcome where
  | ok (np : NeoPixel)
  | blocked
  | fatal
  deriving DecidableEq, Repr

/-- One instruction on the controller state. `Lock` is enabled only while the
mutex is free; `Unlock` of a free mutex is the runtime's fatal error
"sync: Unlock of unlocked RWMutex". -/
def Instr.exec (np : NeoPixel) : Instr → Outcome
  | .Lock => if np.lockHeld then .blocked else .ok { np with lockHeld := true }
  | .Unlock => if np.lockHeld then .ok { np with lockHeld := false } else .fatal
  | .assign c => .ok { np with Colors := c }
  | .send => .ok { np with Out := np.Out ++ [np.Colors] }
  | .Sleep _ => .ok np

/-- A step of the running system: the next instruction of the calling goroutine,
or one turn of the `reader` loop (a read from the serial port returned, then
`np.Unlock()`). -/
inductive Event where
  | caller (i : Instr)
  | reader
  deriving DecidableEq, Repr

/-- One system step. -/
def Event.step (np : NeoPixel) : Event → Outcome
  | .caller i => i.exec np
  | .reader => Instr.exec np .Unlock

/-- A schedule of system steps, executed from left to right until one of them
does not complete. -/
def runEvents : NeoPixel → List Event → Outcome
  | np, [] => .ok np
  | np, e :: es =>
    match e.step np with
    | .ok np1 => runEvents np1 es
    | .blocked => .blocked
    | .fatal => .fatal

/-- The calling goroutine running alone: no inbound byte arrives meanwhile. -/
def run (np : NeoPixel) (is : List Instr) : Outcome :=
  runEvents np (is.map Event.caller)

/-- The caller's instructions in a schedule, in order. -/
def callerInstrs : List Event → List Instr
  | [] => []
  | .caller i :: es => i :: callerInstrs es
  | .reader :: es => callerInstrs es

/-! ## The operations of `main.go` -/

/-- Go `New`: `openErr` says that `serial.OpenPort` failed (`log.Fatal`);
`make([]uint8, leds*3)` panics on a negative length. It also panics on a
positive length beyond what the allocator can give, a limit that is left out
here: `New` then yields a state the program never builds, so a statement about
every state `New` yields covers those too. The mutex is taken before the
goroutines start. -/
def New (leds : Int) (openErr : Bool) : Option NeoPixel :=
  if openErr then none
  else if ledBytes leds < 0 then none
  else some
    { leds := leds
      Colors := List.replicate (ledBytes leds).toNat 0
      lockHeld := true
      Out := [] }

/-- Go `NeoPixel.SetColors`; `leds` is the field `np.leds`, written only by
`New`. -/
def SetColors (leds : Int) (c : Leds) : List Instr :=
  if (c.length : Int) ≠ ledBytes leds then []
  else [.Lock, .assign c, .Unlock]

/-- Go `NeoPixel.Sync`. -/
def Sync : List Instr := [.Lock, .send]

/-- The body of `for _, frame := range a.Frames` in `animator`. -/
def frameBody (leds : Int) (frame : Frame) : List Instr :=
  SetColors leds frame.Leds ++ Sync ++ [.Sleep (wrapInt (frame.Delay * 1000000))]

/-- The loop `for _, frame := range a.Frames`. -/
def rangeFrames (leds : Int) : List Frame → List Instr
  | [] => []
  | frame :: rest => frameBody leds frame ++ rangeFrames leds rest

/-- The loop `for l := a.Loop; l > 0; l--`, which runs its body `a.Loop` times
when `a.Loop` is positive and not at all otherwise; the argument is the number
of iterations left. -/
def loopFrames (leds : Int) (frames : List Frame) : Nat → List Instr
  | 0 => []
  | k + 1 => rangeFrames leds frames ++ loopFrames leds frames k

/-- One turn of the `for` loop of Go `NeoPixel.animator`, for the animation `a`
received from `np.Anim` in state `np`: remember `np.Colors`, play the frames,
reset the leds. The channel `np.Anim` is never closed, so the `log.Fatal` of the
loop is out of reach. -/
def animator (np : NeoPixel) (a : Anim) : List Instr :=
  let zero := np.Colors
  loopFrames np.leds a.Frames a.Loop.toNat ++ (SetColors np.leds zero ++ Sync)

/-- The `http.ResponseWriter` as far as the handlers use it: the status code on
the wire is that of the first `WriteHeader` call, later calls are ignored by
`net/http`. -/
def WriteHeader (w : Option Nat) (code : Nat) : Option Nat :=
  match w with
  | none => some code
  | some c => some c

/-- What a handler has to work with: whether reading or closing the body
failed, what `json.Unmarshal(body, &v)` left in `v` and whether it returned an
error, and whether encoding that error into the response failed. -/
structure Request (α : Type) where
  readErr : Bool
  closeErr : Bool
  decoded : α
  decodeErr : Bool
  encodeErr : Bool

/-- What a handler does when it runs to its end: the status code of the
response, its instructions on the controller in order, and the animations it
sends on `np.Anim`. -/
structure Handled where
  status : Option Nat
  instrs : List Instr
  submitted : List Anim
  deriving DecidableEq, Repr

/-- Go `NeoPixel.ColorPOST`; `none` is a panic. -/
def ColorPOST (leds : Int) (r : Request Leds) : Option Handled :=
  if r.readErr then none
  else if r.closeErr then none
  else
    let w : Option Nat := none
    if r.decodeErr then
      let w := WriteHeader w 422
      if r.encodeErr then none
      else some
        { status := WriteHeader w 200
          instrs := SetColors leds r.decoded ++ Sync
          submitted := [] }
    else some
      { status := WriteHeader w 200
        instrs := SetColors leds r.decoded ++ Sync
        submitted := [] }

/-- Go `NeoPixel.AnimPOST`; `none` is a panic. -/
def AnimPOST (r : Request Anim) : Option Handled :=
  if r.readErr then none
  else if r.closeErr then none
  else
    let w : Option Nat := none
    if r.decodeErr then
      let w := WriteHeader w 422
      if r.encodeErr then none
      else some
        { status := WriteHeader w 200
          instrs := []
          submitted := [r.decoded] }
    else some
      { status := WriteHeader w 200
        instrs := []
        submitted := [r.decoded] }

/-! ## Derived notions used to state the properties -/

/-- The schedule `es` is one playback of the animation `a` received in state
`np`: the only caller is the animator, whose instructions are those of one turn
of its loop; turns of the reader may occur anywhere in between. -/
def Playback (np : NeoPixel) (a : Anim) (es : List Event) : Prop :=
  callerInstrs es = animator np a

instance (np : NeoPixel) (a : Anim) (es : List Event) : Decidable (Playback np a es) :=
  inferInstanceAs (Decidable (callerInstrs es = animator np a))

/-- The schedule in which the device answers exactly when the caller needs it:
a turn of the reader is placed before each `Lock` the caller reaches while the
mutex is held. `held` is the state of the mutex at the start. -/
def withAcks : Bool → List Instr → List Event
  | _, [] => []
  | held, .Lock :: is =>
    if held then .reader :: .caller .Lock :: withAcks true is
    else .caller .Lock :: withAcks true is
  | _, .Unlock :: is => .caller .Unlock :: withAcks false is
  | held, .assign c :: is => .caller (.assign c) :: withAcks held is
  | held, .send :: is => .caller .send :: withAcks held is
  | held, .Sleep d :: is => .caller (.Sleep d) :: withAcks held is

/-- The colour buffer after the instructions `is`, started with buffer `c`. -/
def colorsAfter : Leds → List Instr → Leds
  | c, [] => c
  | _, .assign b :: is => colorsAfter b is
  | c, .Lock :: is => colorsAfter c is
  | c, .Unlock :: is => colorsAfter c is
  | c, .send :: is => colorsAfter c is
  | c, .Sleep _ :: is => colorsAfter c is

/-- The buffers the instructions `is` send on `np.Out`, started with buffer `c`. -/
def writes : Leds → List Instr → List Leds
  | _, [] => []
  | _, .assign b :: is => writes b is
  | c, .send :: is => c :: writes c is
  | c, .Lock :: is => writes c is
  | c, .Unlock :: is => writes c is
  | c, .Sleep _ :: is => writes c is

/-- The buffer in effect after the frame `f` when `c` was in effect before it:
the frame's own when it has the controller's length, `c` otherwise. -/
def shown (leds : Int) (c : Leds) (f : Frame) : Leds :=
  if (f.Leds.length : Int) = ledBytes leds then f.Leds else c

/-- The buffers in effect after each frame of one pass over the frames. -/
def passShown (leds : Int) : Leds → List Frame → List Leds
  | _, [] => []
  | c, f :: fs => shown leds c f :: passShown leds (shown leds c f) fs

/-- The buffer in effect after one pass over the frames. -/
def passEnd (leds : Int) : Leds → List Frame → Leds
  | c, [] => c
  | c, f :: fs => passEnd leds (shown leds c f) fs

/-- The buffers in effect after each frame of `k` passes over the frames. -/
def loopShown (leds : Int) (fs : List Frame) : Leds → Nat → List Leds
  | _, 0 => []
  | c, k + 1 => passShown leds c fs ++ loopShown leds fs (passEnd leds c fs) k

/-- The buffer in effect after `k` passes over the frames. -/
def loopEnd (leds : Int) (fs : List Frame) : Leds → Nat → Leds
  | c, 0 => c
  | c, k + 1 => loopEnd leds fs (passEnd leds c fs) k

/-- The calls a client of the controller can make. -/
inductive Call where
  | SetColors (c : Leds)
  | Sync
  | Play (a : Anim)

/-- The instructions of a call made in state `np`. -/
def Call.code (np : NeoPixel) : Call → List Instr
  | .SetColors c => Buildlight.SetColors np.leds c
  | .Sync => Buildlight.Sync
  | .Play a => animator np a

/-- The states reached from `np0` by a finite sequence of calls, one after the
other, with turns of the reader anywhere in between. -/
inductive Reachable (np0 : NeoPixel) : NeoPixel → Prop where
  | start : Reachable np0 np0
  | call (np np1 : NeoPixel) (c : Call) (es : List Event) :
      Reachable np0 np → callerInstrs es = c.code np → runEvents np es = .ok np1 →
      Reachable np0 np1

/-- Under `withAcks` the instructions `is` complete from every state, and the
schedule of what follows them goes on from the state they reach. -/
def Completes (is : List Instr) : Prop :=
  ∀ np : NeoPixel, ∃ np1 : NeoPixel, ∀ rest : List Instr,
    runEvents np (withAcks np.lockHeld (is ++ rest)) =
      runEvents np1 (withAcks np1.lockHeld rest)

/-- The state `New` builds for a strip of one led. -/
def afterNew1 : NeoPixel := ⟨1, [0, 0, 0], true, []⟩

/-- A strip of one led at rest: all dark, mutex free, nothing sent yet. -/
def idle1 : NeoPixel := ⟨1, [0, 0, 0], false, []⟩

/-- A strip of 16 leds at rest: all dark, mutex free, nothing sent yet. -/
def strip16 : NeoPixel := ⟨16, List.replicate 48 0, false, []⟩

/-- Two loops over an all-on and an all-off frame of 16 leds. -/
def blink : Anim := ⟨2, [⟨List.replicate 48 255, 10⟩, ⟨List.replicate 48 0, 10⟩]⟩

/-- The state of `strip16` after one playback of `blink`. -/
def played16 : NeoPixel :=
  ⟨16, List.replicate 48 0, true,
    [List.replicate 48 255, List.replicate 48 0, List.replicate 48 255,
      List.replicate 48 0, List.replicate 48 0]⟩

/-- One loop over a frame of one led and a frame with no `leds` at all. -/
def mixed : Anim := ⟨1, [⟨[9, 9, 9], 0⟩, ⟨[], 0⟩]⟩

/-! ## Lemmas on executions -/

theorem callerInstrs_append (xs ys : List Event) :
    callerInstrs (xs ++ ys) = callerInstrs xs ++ callerInstrs ys := by
  induction xs with
  | nil => rfl
  | cons e es ih => cases e <;> simp [callerInstrs, ih]

theorem callerInstrs_withAcks (held : Bool) (is : List Instr) :
    callerInstrs (withAcks held is) = is := by
  induction is generalizing held with
  | nil => rfl
  | cons i is ih =>
    cases i <;> cases held <;> simp [withAcks, callerInstrs, ih]

theorem exec_ok (np np1 : NeoPixel) (i : Instr) (h : i.exec np = .ok np1) :
    np1.leds = np.leds ∧ np1.Colors = colorsAfter np.Colors [i] ∧
      np1.Out = np.Out ++ writes np.Colors [i] := by
  cases i <;> simp only [Instr.exec] at h
  · split at h <;> simp at h
    subst h; simp [colorsAfter, writes]
  · split at h <;> simp at h
    subst h; simp [colorsAfter, writes]
  · simp at h; subst h; simp [colorsAfter, writes]
  · simp at h; subst h; simp [colorsAfter, writes]
  · simp at h; subst h; simp [colorsAfter, writes]

theorem colorsAfter_cons (c : Leds) (i : Instr) (is : List Instr) :
    colorsAfter c (i :: is) = colorsAfter (colorsAfter c [i]) is := by
  cases i <;> simp [colorsAfter]

theorem writes_cons (c : Leds) (i : Instr) (is : List Instr) :
    writes c (i :: is) = writes c [i] ++ writes (colorsAfter c [i]) is := by
  cases i <;> simp [colorsAfter, writes]

theorem colorsAfter_append (c : Leds) (xs ys : List Instr) :
    colorsAfter c (xs ++ ys) = colorsAfter (colorsAfter c xs) ys := by
  induction xs generalizing c with
  | nil => rfl
  | cons i is ih =>
    rw [List.cons_append, colorsAfter_cons, ih, ← colorsAfter_cons]

theorem writes_append (c : Leds) (xs ys : List Instr) :
    writes c (xs ++ ys) = writes c xs ++ writes (colorsAfter c xs) ys := by
  induction xs generalizing c with
  | nil => rfl
  | cons i is ih =>
    rw [List.cons_append, writes_cons, ih, ← colorsAfter_cons, ← List.append_assoc,
      ← writes_cons]

/-- Whatever the schedule, a completed execution leaves `np.leds` alone, and the
colour buffer and the buffers sent are those of the caller's instructions. -/
theorem runEvents_ok (np np1 : NeoPixel) (es : List Event) (h : runEvents np es = .ok np1) :
    np1.leds = np.leds ∧ np1.Colors = colorsAfter np.Colors (callerInstrs es) ∧
      np1.Out = np.Out ++ writes np.Colors (callerInstrs es) := by
  induction es generalizing np with
  | nil =>
    simp [runEvents] at h
    subst h; simp [callerInstrs, colorsAfter, writes]
  | cons e es ih =>
    simp only [runEvents] at h
    cases hs : e.step np with
    | blocked => rw [hs] at h; simp at h
    | fatal => rw [hs] at h; simp at h
    | ok np2 =>
      rw [hs] at h
      obtain ⟨h1, h2, h3⟩ := ih np2 h
      cases e with
      | caller i =>
        obtain ⟨g1, g2, g3⟩ := exec_ok np np2 i hs
        refine ⟨by rw [h1, g1], ?_, ?_⟩
        · rw [h2, g2, callerInstrs, ← colorsAfter_cons]
        · rw [h3, g3, g2, callerInstrs, List.append_assoc, ← writes_cons]
      | reader =>
        obtain ⟨g1, g2, g3⟩ := exec_ok np np2 .Unlock hs
        simp [colorsAfter, writes] at g2 g3
        refine ⟨by rw [h1, g1], ?_, ?_⟩
        · rw [h2, g2, callerInstrs]
        · rw [h3, g3, g2, callerInstrs]

/-! ## What the code of each operation does to the buffer and the channel -/

theorem colorsAfter_SetColors (leds : Int) (c b : Leds) :
    colorsAfter c (SetColors leds b) = if (b.length : Int) = ledBytes leds then b else c := by
  unfold SetColors
  by_cases h : (b.length : Int) = ledBytes leds <;> simp [h, colorsAfter]

theorem writes_SetColors (leds : Int) (c b : Leds) : writes c (SetColors leds b) = [] := by
  unfold SetColors
  by_cases h : (b.length : Int) = ledBytes leds <;> simp [h, writes]

theorem colorsAfter_Sync (c : Leds) : colorsAfter c Sync = c := rfl

theorem writes_Sync (c : Leds) : writes c Sync = [c] := rfl

theorem colorsAfter_frameBody (leds : Int) (c : Leds) (f : Frame) :
    colorsAfter c (frameBody leds f) = shown leds c f := by
  simp [frameBody, colorsAfter_append, colorsAfter_SetColors, colorsAfter_Sync, colorsAfter,
    shown]

theorem writes_frameBody (leds : Int) (c : Leds) (f : Frame) :
    writes c (frameBody leds f) = [shown leds c f] := by
  simp [frameBody, writes_append, colorsAfter_append, colorsAfter_SetColors, colorsAfter_Sync,
    writes_SetColors, writes_Sync, writes, shown]

theorem colorsAfter_rangeFrames (leds : Int) (c : Leds) (fs : List Frame) :
    colorsAfter c (rangeFrames leds fs) = passEnd leds c fs := by
  induction fs generalizing c with
  | nil => rfl
  | cons f fs ih =>
    simp [rangeFrames, colorsAfter_append, colorsAfter_frameBody, ih, passEnd]

theorem writes_rangeFrames (leds : Int) (c : Leds) (fs : List Frame) :
    writes c (rangeFrames leds fs) = passShown leds c fs := by
  induction fs generalizing c with
  | nil => rfl
  | cons f fs ih =>
    simp [rangeFrames, writes_append, writes_frameBody, colorsAfter_frameBody, ih, passShown]

theorem colorsAfter_loopFrames (leds : Int) (fs : List Frame) (c : Leds) (k : Nat) :
    colorsAfter c (loopFrames leds fs k) = loopEnd leds fs c k := by
  induction k generalizing c with
  | zero => rfl
  | succ k ih =>
    simp [loopFrames, colorsAfter_append, colorsAfter_rangeFrames, ih, loopEnd]

theorem writes_loopFrames (leds : Int) (fs : List Frame) (c : Leds) (k : Nat) :
    writes c (loopFrames leds fs k) = loopShown leds fs c k := by
  induction k generalizing c with
  | zero => rfl
  | succ k ih =>
    simp [loopFrames, writes_append, writes_rangeFrames, colorsAfter_rangeFrames, ih, loopShown]

/-- The buffer in effect keeps the controller's length over a frame. -/
theorem shown_length (leds : Int) (c : Leds) (f : Frame)
    (h : (c.length : Int) = ledBytes leds) : ((shown leds c f).length : Int) = ledBytes leds := by
  unfold shown
  by_cases g : (f.Leds.length : Int) = ledBytes leds <;> simp [g, h]

theorem passEnd_length (leds : Int) (c : Leds) (fs : List Frame)
    (h : (c.length : Int) = ledBytes leds) : ((passEnd leds c fs).length : Int) = ledBytes leds := by
  induction fs generalizing c with
  | nil => exact h
  | cons f fs ih => exact ih _ (shown_length leds c f h)

theorem passShown_length_mem (leds : Int) (c : Leds) (fs : List Frame)
    (h : (c.length : Int) = ledBytes leds) :
    ∀ b ∈ passShown leds c fs, (b.length : Int) = ledBytes leds := by
  induction fs generalizing c with
  | nil => intro b hb; simp [passShown] at hb
  | cons f fs ih =>
    intro b hb
    simp only [passShown, List.mem_cons] at hb
    rcases hb with hb | hb
    · rw [hb]; exact shown_length leds c f h
    · exact ih _ (shown_length leds c f h) b hb

theorem loopEnd_length (leds : Int) (fs : List Frame) (c : Leds) (k : Nat)
    (h : (c.length : Int) = ledBytes leds) :
    ((loopEnd leds fs c k).length : Int) = ledBytes leds := by
  induction k generalizing c with
  | zero => exact h
  | succ k ih => exact ih _ (passEnd_length leds c fs h)

theorem loopShown_length_mem (leds : Int) (fs : List Frame) (c : Leds) (k : Nat)
    (h : (c.length : Int) = ledBytes leds) :
    ∀ b ∈ loopShown leds fs c k, (b.length : Int) = ledBytes leds := by
  induction k generalizing c with
  | zero => intro b hb; simp [loopShown] at hb
  | succ k ih =>
    intro b hb
    simp only [loopShown, List.mem_append] at hb
    rcases hb with hb | hb
    · exact passShown_length_mem leds c fs h b hb
    · exact ih _ (passEnd_length leds c fs h) b hb

theorem passShown_count (leds : Int) (c : Leds) (fs : List Frame) :
    (passShown leds c fs).length = fs.length := by
  induction fs generalizing c with
  | nil => rfl
  | cons f fs ih => simp [passShown, ih]

theorem loopShown_count (leds : Int) (fs : List Frame) (c : Leds) (k : Nat) :
    (loopShown leds fs c k).length = k * fs.length := by
  induction k generalizing c with
  | zero => simp [loopShown]
  | succ k ih => simp [loopShown, passShown_count, ih, Nat.succ_mul, Nat.add_comm]

/-- When every frame has the controller's length, a pass shows the frames' own
buffers, whatever was in effect before. -/
theorem passShown_sized (leds : Int) (c : Leds) (fs : List Frame)
    (h : ∀ f ∈ fs, (f.Leds.length : Int) = ledBytes leds) :
    passShown leds c fs = fs.map Frame.Leds := by
  induction fs generalizing c with
  | nil => rfl
  | cons f fs ih =>
    have hf : (f.Leds.length : Int) = ledBytes leds := h f (List.mem_cons_self f fs)
    have ht : ∀ g ∈ fs, (g.Leds.length : Int) = ledBytes leds :=
      fun g hg => h g (List.mem_cons_of_mem f hg)
    simp [passShown, shown, hf, ih _ ht]

theorem loopShown_sized (leds : Int) (fs : List Frame) (c : Leds) (k : Nat)
    (h : ∀ f ∈ fs, (f.Leds.length : Int) = ledBytes leds) :
    loopShown leds fs c k = (List.replicate k (fs.map Frame.Leds)).flatten := by
  induction k generalizing c with
  | zero => rfl
  | succ k ih =>
    simp [loopShown, passShown_sized leds c fs h, ih, List.replicate_succ]

/-- The colour buffer after one turn of the animator started with a buffer of
the controller's length is that buffer again; otherwise the reset is skipped. -/
theorem colorsAfter_animator (np : NeoPixel) (a : Anim) :
    colorsAfter np.Colors (animator np a) =
      if (np.Colors.length : Int) = ledBytes np.leds then np.Colors
      else loopEnd np.leds a.Frames np.Colors a.Loop.toNat := by
  simp [animator, colorsAfter_append, colorsAfter_loopFrames, colorsAfter_SetColors,
    colorsAfter_Sync]

theorem writes_animator (np : NeoPixel) (a : Anim) :
    writes np.Colors (animator np a) =
      loopShown np.leds a.Frames np.Colors a.Loop.toNat ++
        [if (np.Colors.length : Int) = ledBytes np.leds then np.Colors
          else loopEnd np.leds a.Frames np.Colors a.Loop.toNat] := by
  simp [animator, writes_append, colorsAfter_append, writes_loopFrames, colorsAfter_loopFrames,
    writes_SetColors, writes_Sync, colorsAfter_SetColors]

/-! ## Progress: the schedule in which the device answers completes every call -/

theorem Completes_nil : Completes [] := fun np => ⟨np, fun _ => rfl⟩

theorem Completes_append (xs ys : List Instr) (hx : Completes xs) (hy : Completes ys) :
    Completes (xs ++ ys) := by
  intro np
  obtain ⟨np1, h1⟩ := hx np
  obtain ⟨np2, h2⟩ := hy np1
  exact ⟨np2, fun rest => by rw [List.append_assoc, h1, h2]⟩

theorem Completes_SetColors (leds : Int) (c : Leds) : Completes (SetColors leds c) := by
  intro np
  unfold SetColors
  by_cases h : (c.length : Int) = ledBytes leds
  · refine ⟨{ np with Colors := c, lockHeld := false }, fun rest => ?_⟩
    obtain ⟨l, c0, held, o⟩ := np
    cases held <;> simp [h, withAcks, runEvents, Event.step, Instr.exec]
  · exact ⟨np, fun rest => by simp [h]⟩

theorem Completes_Sync : Completes Sync := by
  intro np
  refine ⟨{ np with lockHeld := true, Out := np.Out ++ [np.Colors] }, fun rest => ?_⟩
  obtain ⟨l, c0, held, o⟩ := np
  cases held <;> simp [Sync, withAcks, runEvents, Event.step, Instr.exec]

theorem Completes_Sleep (d : Int) : Completes [.Sleep d] := by
  intro np
  exact ⟨np, fun rest => by simp [withAcks, runEvents, Event.step, Instr.exec]⟩

theorem Completes_rangeFrames (leds : Int) (fs : List Frame) :
    Completes (rangeFrames leds fs) := by
  induction fs with
  | nil => exact Completes_nil
  | cons f fs ih =>
    exact Completes_append _ _
      (Completes_append _ _
        (Completes_append _ _ (Completes_SetColors leds f.Leds) Completes_Sync)
        (Completes_Sleep _)) ih

theorem Completes_loopFrames (leds : Int) (fs : List Frame) (k : Nat) :
    Completes (loopFrames leds fs k) := by
  induction k with
  | zero => exact Completes_nil
  | succ k ih => exact Completes_append _ _ (Completes_rangeFrames leds fs) ih

theorem Completes_animator (np : NeoPixel) (a : Anim) : Completes (animator np a) :=
  Completes_append _ _ (Completes_loopFrames _ _ _)
    (Completes_append _ _ (Completes_SetColors _ _) Completes_Sync)

theorem Completes_run (is : List Instr) (h : Completes is) (np : NeoPixel) :
    ∃ np1, runEvents np (withAcks np.lockHeld is) = .ok np1 := by
  obtain ⟨np1, h1⟩ := h np
  refine ⟨np1, ?_⟩
  have := h1 []
  simpa [withAcks, runEvents] using this

/-- From every state a playback exists that runs to completion: the one in which
the device answers whenever the animator waits for the mutex. -/
theorem playback_exists (np : NeoPixel) (a : Anim) :
    ∃ es np1, Playback np a es ∧ runEvents np es = .ok np1 := by
  obtain ⟨np1, h⟩ := Completes_run _ (Completes_animator np a) np
  exact ⟨_, np1, callerInstrs_withAcks _ _, h⟩

/-- A completed playback from a state whose buffer has the controller's length:
the buffer is back, and the channel got the buffer in effect after each frame,
then the remembered buffer. -/
theorem playback_ok (np np1 : NeoPixel) (a : Anim) (es : List Event)
    (hp : (np.Colors.length : Int) = ledBytes np.leds)
    (he : Playback np a es) (hr : runEvents np es = .ok np1) :
    np1.leds = np.leds ∧ np1.Colors = np.Colors ∧
      np1.Out = np.Out ++ loopShown np.leds a.Frames np.Colors a.Loop.toNat ++ [np.Colors] := by
  obtain ⟨h1, h2, h3⟩ := runEvents_ok np np1 es hr
  unfold Playback at he
  rw [he] at h2 h3
  rw [colorsAfter_animator] at h2
  rw [writes_animator] at h3
  simp only [hp, if_true] at h2 h3
  exact ⟨h1, h2, by rw [h3, List.append_assoc]⟩

/-- In range, `np.leds*3` is the mathematical product. -/
theorem ledBytes_inRange (leds : Int) (h0 : 0 ≤ leds) (h1 : leds * 3 < 2 ^ 63) :
    ledBytes leds = leds * 3 := by
  unfold ledBytes wrapInt
  have e63 : (2 : Int) ^ 63 = 9223372036854775808 := by norm_num
  have e64 : (2 : Int) ^ 64 = 18446744073709551616 := by norm_num
  rw [e63] at h1 ⊢
  rw [e64]
  omega

/-! ## The properties -/

/-- C1: for every controller state and every buffer `b` of length `np.leds*3`,
`SetColors(b)` goes through and `np.Colors` is `b` afterwards. With the mutex
free the call completes on its own; in every state it completes under the
schedule in which the reader releases the mutex when it is held; and every
completed execution of the call, whatever the reader does meanwhile, ends with
`np.Colors = b`. -/
theorem SetColors_stores (np : NeoPixel) (b : Leds)
    (h : (b.length : Int) = ledBytes np.leds) :
    (np.lockHeld = false → run np (SetColors np.leds b) = .ok { np with Colors := b }) ∧
    runEvents np (withAcks np.lockHeld (SetColors np.leds b)) =
      .ok { np with Colors := b, lockHeld := false } ∧
    ∀ es np1, callerInstrs es = SetColors np.leds b → runEvents np es = .ok np1 →
      np1.Colors = b := by
  refine ⟨?_, ?_, ?_⟩
  · intro hf
    obtain ⟨l, c0, held, o⟩ := np
    simp only at hf h
    subst hf
    simp [SetColors, h, run, runEvents, Event.step, Instr.exec]
  · obtain ⟨l, c0, held, o⟩ := np
    simp only at h
    cases held <;> simp [SetColors, h, withAcks, runEvents, Event.step, Instr.exec]
  · intro es np1 he hr
    obtain ⟨_, h2, _⟩ := runEvents_ok np np1 es hr
    rw [h2, he, colorsAfter_SetColors, if_pos h]

/-- C1 at a concrete input: the state `New` builds for one led, buffer
`[1, 2, 3]`. -/
theorem SetColors_stores_witness :
    (([1, 2, 3] : Leds).length : Int) = ledBytes afterNew1.leds ∧
    runEvents afterNew1 (withAcks true (SetColors 1 [1, 2, 3])) =
      .ok ⟨1, [1, 2, 3], false, []⟩ :=
  ⟨by decide, (SetColors_stores afterNew1 [1, 2, 3] (by decide)).2.1⟩

/-- C2 as stated fails: `SetColors` has no result and a buffer of the wrong
length makes it return before its first instruction, so its caller sees exactly
what it sees after an accepted call (here the accepted buffer equals the current
one), and `ColorPOST` answers 200 to a decoded buffer of the wrong length. -/
theorem SetColors_mismatch_not_reported :
    (([] : Leds).length : Int) ≠ ledBytes idle1.leds ∧
    SetColors 1 [] = [] ∧
    run idle1 (SetColors 1 []) = run idle1 (SetColors 1 [0, 0, 0]) ∧
    ColorPOST 1 ⟨false, false, [], false, false⟩ = some ⟨some 200, Sync, []⟩ := by
  decide

/-- C2, amended: for every controller state and every buffer `b` whose length
is not `np.leds*3`, `SetColors(b)` returns at once without any instruction (no
lock taken, nothing reported), and the state is what it was before the
call; whatever the reader does meanwhile, the colour buffer and the channel are
unchanged. -/
theorem SetColors_mismatch_ignored (np : NeoPixel) (b : Leds)
    (h : (b.length : Int) ≠ ledBytes np.leds) :
    SetColors np.leds b = [] ∧ run np (SetColors np.leds b) = .ok np ∧
    ∀ es np1, callerInstrs es = SetColors np.leds b → runEvents np es = .ok np1 →
      np1.Colors = np.Colors ∧ np1.Out = np.Out := by
  have h0 : SetColors np.leds b = [] := by simp [SetColors, h]
  refine ⟨h0, by simp [h0, run, runEvents], ?_⟩
  intro es np1 he hr
  obtain ⟨_, h2, h3⟩ := runEvents_ok np np1 es hr
  rw [he, h0] at h2 h3
  simpa [colorsAfter, writes] using And.intro h2 h3

/-- C2 amended, at a concrete input: the empty buffer on a one-led controller
whose mutex is held. -/
theorem SetColors_mismatch_ignored_witness :
    (([] : Leds).length : Int) ≠ ledBytes afterNew1.leds ∧
    run afterNew1 (SetColors afterNew1.leds []) = .ok afterNew1 :=
  ⟨by decide, (SetColors_mismatch_ignored afterNew1 [] (by decide)).2.1⟩

/-- C3: for every animation with loop count `N > 0` and `F` frames, from every
state whose buffer `p` has the controller's length, a playback runs to
completion, and every completed playback (no other caller, the reader free to
run) sends exactly `N*F + 1` buffers on `np.Out`: `N*F` for the frames, then
`p`. -/
theorem playback_hands_over (np : NeoPixel) (a : Anim)
    (hp : (np.Colors.length : Int) = ledBytes np.leds) (hN : 0 < a.Loop) :
    (∃ es np1, Playback np a es ∧ runEvents np es = .ok np1) ∧
    ∀ es np1, Playback np a es → runEvents np es = .ok np1 →
      ∃ ws : List Leds, np1.Out = np.Out ++ (ws ++ [np.Colors]) ∧
        (ws.length : Int) = a.Loop * a.Frames.length ∧
        ((ws ++ [np.Colors]).length : Int) = a.Loop * a.Frames.length + 1 ∧
        (ws ++ [np.Colors]).getLast? = some np.Colors := by
  refine ⟨playback_exists np a, ?_⟩
  intro es np1 he hr
  obtain ⟨_, _, h3⟩ := playback_ok np np1 a es hp he hr
  have hl : ((loopShown np.leds a.Frames np.Colors a.Loop.toNat).length : Int) =
      a.Loop * a.Frames.length := by
    rw [loopShown_count, Nat.cast_mul, Int.toNat_of_nonneg (le_of_lt hN)]
  refine ⟨loopShown np.leds a.Frames np.Colors a.Loop.toNat, ?_, hl, ?_, ?_⟩
  · rw [h3, List.append_assoc]
  · rw [List.length_append, Nat.cast_add, hl]; simp
  · simp

/-- C3 at a concrete input: 16 leds, all dark, two loops over two frames; the
playback in which the device answers each write ends in `played16`, and of the
five buffers sent the last is the dark one. -/
theorem playback_hands_over_witness :
    ((strip16.Colors.length : Int) = ledBytes strip16.leds ∧ 0 < blink.Loop) ∧
    runEvents strip16 (withAcks false (animator strip16 blink)) = .ok played16 ∧
    ∃ ws : List Leds, played16.Out = strip16.Out ++ (ws ++ [strip16.Colors]) ∧
      (ws.length : Int) = blink.Loop * blink.Frames.length ∧
      ((ws ++ [strip16.Colors]).length : Int) = blink.Loop * blink.Frames.length + 1 ∧
      (ws ++ [strip16.Colors]).getLast? = some strip16.Colors :=
  ⟨⟨by decide, by decide⟩, by decide,
    (playback_hands_over strip16 blink (by decide) (by decide)).2
      (withAcks false (animator strip16 blink)) played16 (by decide) (by decide)⟩

/-- C4: for every animation whose frames all have the controller's length, with
loop count `N ≥ 0`, from every state whose buffer `p` has the controller's
length, a playback runs to completion, and every completed playback sends on
`np.Out` the frames' buffers in frame order, that sequence `N` times over, then
`p`. -/
theorem playback_sequence (np : NeoPixel) (a : Anim) (N : Nat)
    (hp : (np.Colors.length : Int) = ledBytes np.leds)
    (hN : a.Loop = (N : Int))
    (hf : ∀ f ∈ a.Frames, (f.Leds.length : Int) = ledBytes np.leds) :
    (∃ es np1, Playback np a es ∧ runEvents np es = .ok np1) ∧
    ∀ es np1, Playback np a es → runEvents np es = .ok np1 →
      np1.Out =
        np.Out ++ ((List.replicate N (a.Frames.map Frame.Leds)).flatten ++ [np.Colors]) := by
  refine ⟨playback_exists np a, ?_⟩
  intro es np1 he hr
  obtain ⟨_, _, h3⟩ := playback_ok np np1 a es hp he hr
  rw [h3, loopShown_sized _ _ _ _ hf, hN, Int.toNat_ofNat, List.append_assoc]

/-- C4 at the concrete input of the specification: 16 leds, 48 zeros in effect,
two loops over the frames `255 × 48` and `0 × 48`; the channel receives
`255 × 48, 0 × 48, 255 × 48, 0 × 48, 0 × 48`. -/
theorem playback_sequence_witness :
    ((strip16.Colors.length : Int) = ledBytes strip16.leds ∧ blink.Loop = ((2 : Nat) : Int) ∧
      ∀ f ∈ blink.Frames, (f.Leds.length : Int) = ledBytes strip16.leds) ∧
    runEvents strip16 (withAcks false (animator strip16 blink)) = .ok played16 ∧
    played16.Out =
      [List.replicate 48 255, List.replicate 48 0, List.replicate 48 255,
        List.replicate 48 0, List.replicate 48 0] :=
  ⟨⟨by decide, by decide, by decide⟩, by decide,
    (playback_sequence strip16 blink 2 (by decide) (by decide) (by decide)).2
      (withAcks false (animator strip16 blink)) played16 (by decide) (by decide)⟩

/-- C5 as stated fails: the animation `mixed` has a frame with an empty
`leds`, yet it is played. Its first frame is written to the colour buffer (the
state after the first three steps) and sent to the writer, the empty frame sends
the buffer then in effect once more, and the playback completes. -/
theorem missized_frame_is_played :
    (∃ f ∈ mixed.Frames, (f.Leds.length : Int) ≠ ledBytes idle1.leds) ∧
    Playback idle1 mixed (withAcks false (animator idle1 mixed)) ∧
    runEvents idle1 ((withAcks false (animator idle1 mixed)).take 3) =
      .ok ⟨1, [9, 9, 9], false, []⟩ ∧
    runEvents idle1 (withAcks false (animator idle1 mixed)) =
      .ok ⟨1, [0, 0, 0], true, [[9, 9, 9], [9, 9, 9], [0, 0, 0]]⟩ := by
  refine ⟨⟨⟨[], 0⟩, by decide, by decide⟩, by decide, by decide, by decide⟩

/-- C5, amended: a frame whose `leds` is empty or of the wrong length does not
stop the animation. From every state whose buffer `p` has the controller's
length a playback runs to completion, and every completed playback sends one
buffer per frame and loop, then `p`, and ends with `p` in effect; the body of a
frame of the wrong length leaves the colour buffer as it is and sends that
buffer, the body of a frame of the right length stores and sends the frame's
buffer. -/
theorem missized_frame_is_skipped (np : NeoPixel) (a : Anim)
    (hp : (np.Colors.length : Int) = ledBytes np.leds) :
    (∃ es np1, Playback np a es ∧ runEvents np es = .ok np1) ∧
    (∀ es np1, Playback np a es → runEvents np es = .ok np1 →
      np1.Colors = np.Colors ∧
      np1.Out = np.Out ++ loopShown np.leds a.Frames np.Colors a.Loop.toNat ++ [np.Colors] ∧
      (loopShown np.leds a.Frames np.Colors a.Loop.toNat).length =
        a.Loop.toNat * a.Frames.length) ∧
    ∀ (st st1 : NeoPixel) (f : Frame) (es : List Event),
      callerInstrs es = frameBody st.leds f → runEvents st es = .ok st1 →
      ((f.Leds.length : Int) ≠ ledBytes st.leds →
        st1.Colors = st.Colors ∧ st1.Out = st.Out ++ [st.Colors]) ∧
      ((f.Leds.length : Int) = ledBytes st.leds →
        st1.Colors = f.Leds ∧ st1.Out = st.Out ++ [f.Leds]) := by
  refine ⟨playback_exists np a, ?_, ?_⟩
  · intro es np1 he hr
    obtain ⟨_, h2, h3⟩ := playback_ok np np1 a es hp he hr
    exact ⟨h2, h3, loopShown_count _ _ _ _⟩
  · intro st st1 f es he hr
    obtain ⟨_, h2, h3⟩ := runEvents_ok st st1 es hr
    rw [he, colorsAfter_frameBody] at h2
    rw [he, writes_frameBody] at h3
    constructor
    · intro hf
      simp only [shown, if_neg hf] at h2 h3
      exact ⟨h2, h3⟩
    · intro hf
      simp only [shown, if_pos hf] at h2 h3
      exact ⟨h2, h3⟩

/-- C5 amended, at a concrete input: the animation `mixed` on one led. -/
theorem missized_frame_is_skipped_witness :
    (idle1.Colors.length : Int) = ledBytes idle1.leds ∧
    ∃ es np1, Playback idle1 mixed es ∧ runEvents idle1 es = .ok np1 :=
  ⟨by decide, (missized_frame_is_skipped idle1 mixed (by decide)).1⟩

/-- C6, the code at the failing inputs, on the 16 leds of `main`: when
`json.Unmarshal` returns an error both handlers answer 422 but go on. `ColorPOST`
with nothing decoded still runs `Sync`, which sends the current buffer to the
writer; with a partial value of 48 bytes it also stores that value; `AnimPOST`
still sends the animation to the animator. -/
theorem decode_error_falls_through :
    ColorPOST 16 ⟨false, false, [], true, false⟩ = some ⟨some 422, Sync, []⟩ ∧
    run strip16 Sync = .ok ⟨16, List.replicate 48 0, true, [List.replicate 48 0]⟩ ∧
    ColorPOST 16 ⟨false, false, List.replicate 47 7 ++ [0], true, false⟩ =
      some ⟨some 422, SetColors 16 (List.replicate 47 7 ++ [0]) ++ Sync, []⟩ ∧
    run strip16 (SetColors 16 (List.replicate 47 7 ++ [0]) ++ Sync) =
      .ok ⟨16, List.replicate 47 7 ++ [0], true, [List.replicate 47 7 ++ [0]]⟩ ∧
    AnimPOST ⟨false, false, ⟨0, []⟩, true, false⟩ = some ⟨some 422, [], [⟨0, []⟩]⟩ := by
  decide

/-- C7: for every animation with loop count 0, whatever its frames and whatever
buffer `p` is in effect, the frame loop contributes no instruction, a playback
runs to completion, and every completed playback ends with `p` in effect, having
sent `p` alone (the reset) on `np.Out`. -/
theorem loop_zero_plays_nothing (np : NeoPixel) (a : Anim) (h0 : a.Loop = 0) :
    loopFrames np.leds a.Frames a.Loop.toNat = [] ∧
    animator np a = SetColors np.leds np.Colors ++ Sync ∧
    (∃ es np1, Playback np a es ∧ runEvents np es = .ok np1) ∧
    ∀ es np1, Playback np a es → runEvents np es = .ok np1 →
      np1.Colors = np.Colors ∧ np1.Out = np.Out ++ [np.Colors] := by
  have hl : loopFrames np.leds a.Frames a.Loop.toNat = [] := by simp [h0, loopFrames]
  have ha : animator np a = SetColors np.leds np.Colors ++ Sync := by simp [animator, hl]
  refine ⟨hl, ha, playback_exists np a, ?_⟩
  intro es np1 he hr
  obtain ⟨_, h2, h3⟩ := runEvents_ok np np1 es hr
  unfold Playback at he
  rw [he, ha, colorsAfter_append, colorsAfter_SetColors, colorsAfter_Sync] at h2
  rw [he, ha, writes_append, writes_SetColors, colorsAfter_SetColors, writes_Sync] at h3
  constructor
  · rw [h2]; split <;> rfl
  · rw [h3]; split <;> simp

/-- C7 at a concrete input: a frame given, but no loop to play it in. -/
theorem loop_zero_plays_nothing_witness :
    (⟨0, [⟨[9, 9, 9], 5⟩]⟩ : Anim).Loop = 0 ∧
    animator idle1 ⟨0, [⟨[9, 9, 9], 5⟩]⟩ = SetColors 1 [0, 0, 0] ++ Sync :=
  ⟨rfl, (loop_zero_plays_nothing idle1 ⟨0, [⟨[9, 9, 9], 5⟩]⟩ rfl).2.1⟩

/-- C8: for every animation (any loop count, any frames) and every state whose
buffer has the controller's length, playing the animation twice in a row is
possible, and after any two completed playbacks in a row the colour buffer is
what it was after the first, which is what it was at the start. -/
theorem playback_twice (np : NeoPixel) (a : Anim)
    (hp : (np.Colors.length : Int) = ledBytes np.leds) :
    (∃ es1 np1 es2 np2, Playback np a es1 ∧ runEvents np es1 = .ok np1 ∧
      Playback np1 a es2 ∧ runEvents np1 es2 = .ok np2) ∧
    ∀ es1 np1 es2 np2, Playback np a es1 → runEvents np es1 = .ok np1 →
      Playback np1 a es2 → runEvents np1 es2 = .ok np2 →
      np2.Colors = np1.Colors ∧ np1.Colors = np.Colors := by
  constructor
  · obtain ⟨es1, np1, he1, hr1⟩ := playback_exists np a
    obtain ⟨es2, np2, he2, hr2⟩ := playback_exists np1 a
    exact ⟨es1, np1, es2, np2, he1, hr1, he2, hr2⟩
  · intro es1 np1 es2 np2 he1 hr1 he2 hr2
    obtain ⟨g1, g2, _⟩ := playback_ok np np1 a es1 hp he1 hr1
    have hp1 : (np1.Colors.length : Int) = ledBytes np1.leds := by rw [g1, g2]; exact hp
    obtain ⟨_, k2, _⟩ := playback_ok np1 np2 a es2 hp1 he2 hr2
    exact ⟨k2, g2⟩

/-- C8 at a concrete input: the animation `mixed`, with its frame of the wrong
length, played twice on one led. -/
theorem playback_twice_witness :
    (idle1.Colors.length : Int) = ledBytes idle1.leds ∧
    ∃ es1 np1 es2 np2, Playback idle1 mixed es1 ∧ runEvents idle1 es1 = .ok np1 ∧
      Playback np1 mixed es2 ∧ runEvents np1 es2 = .ok np2 :=
  ⟨by decide, (playback_twice idle1 mixed (by decide)).1⟩

/-- C9 as stated fails: `Sync` returns with the mutex held, and the `SetColors`
issued right after it cannot proceed. -/
theorem Sync_returns_holding_lock :
    run idle1 Sync = .ok ⟨1, [0, 0, 0], true, [[0, 0, 0]]⟩ ∧
    run ⟨1, [0, 0, 0], true, [[0, 0, 0]]⟩ (SetColors 1 [1, 2, 3]) = .blocked := by
  decide

/-- C9, amended: `SetColors` with a buffer of the controller's length returns
with the mutex free, but `Sync` returns with the mutex held, as `New` does. So
the release on an inbound device byte is needed after every `Sync` and not only
after construction: a `SetColors` of that length, or a `Sync`, issued after a
completed `Sync` is blocked; one turn of the reader frees the mutex, and right
after it the `SetColors` runs to its end, and so does the `Sync`, which sends
the buffer again and holds the mutex again. The state `New` builds is in the
same position: its mutex is held, a `Sync` is blocked, and runs to its end after
one turn of the reader. -/
theorem Sync_needs_reader (np : NeoPixel) (c : Leds)
    (hf : np.lockHeld = false) (hc : (c.length : Int) = ledBytes np.leds) :
    run np (SetColors np.leds c) = .ok { np with Colors := c, lockHeld := false } ∧
    run np Sync = .ok { np with lockHeld := true, Out := np.Out ++ [np.Colors] } ∧
    run { np with lockHeld := true, Out := np.Out ++ [np.Colors] } (SetColors np.leds c) =
      .blocked ∧
    run { np with lockHeld := true, Out := np.Out ++ [np.Colors] } Sync = .blocked ∧
    runEvents { np with lockHeld := true, Out := np.Out ++ [np.Colors] }
        (.reader :: (SetColors np.leds c).map Event.caller) =
      .ok { np with Colors := c, lockHeld := false, Out := np.Out ++ [np.Colors] } ∧
    Event.step { np with lockHeld := true, Out := np.Out ++ [np.Colors] } .reader =
      .ok { np with lockHeld := false, Out := np.Out ++ [np.Colors] } ∧
    runEvents { np with lockHeld := true, Out := np.Out ++ [np.Colors] }
        (.reader :: Sync.map Event.caller) =
      .ok { np with lockHeld := true, Out := np.Out ++ [np.Colors] ++ [np.Colors] } ∧
    (∀ leds np0, New leds false = some np0 → np0.lockHeld = true) ∧
    ∀ leds np0, New leds false = some np0 →
      run np0 Sync = .blocked ∧
      runEvents np0 (.reader :: Sync.map Event.caller) =
        .ok { np0 with lockHeld := true, Out := np0.Out ++ [np0.Colors] } := by
  have hnew : ∀ leds np0, New leds false = some np0 → np0.lockHeld = true := by
    intro leds np0 h
    unfold New at h
    by_cases g : ledBytes leds < 0
    · simp [g] at h
    · simp [g] at h
      rw [← h]
  obtain ⟨l, c0, held, o⟩ := np
  simp only at hf hc
  subst hf
  refine ⟨?_, ?_, ?_, ?_, ?_, ?_, ?_, hnew, ?_⟩
  · simp [SetColors, hc, run, runEvents, Event.step, Instr.exec]
  · simp [Sync, run, runEvents, Event.step, Instr.exec]
  · simp [SetColors, hc, run, runEvents, Event.step, Instr.exec]
  · simp [Sync, run, runEvents, Event.step, Instr.exec]
  · simp [SetColors, hc, runEvents, Event.step, Instr.exec]
  · simp [Event.step, Instr.exec]
  · simp [Sync, runEvents, Event.step, Instr.exec]
  · intro leds np0 h
    have hl := hnew leds np0 h
    obtain ⟨l0, c1, held0, o0⟩ := np0
    simp only at hl
    subst hl
    constructor
    · simp [Sync, run, runEvents, Event.step, Instr.exec]
    · simp [Sync, runEvents, Event.step, Instr.exec]

/-- C9 amended, at a concrete input: one led; after a `Sync` both
`SetColors([1, 2, 3])` and a second `Sync` are blocked, and after one turn of
the reader the second `Sync` runs to its end. -/
theorem Sync_needs_reader_witness :
    (idle1.lockHeld = false ∧ (([1, 2, 3] : Leds).length : Int) = ledBytes idle1.leds) ∧
    run ⟨1, [0, 0, 0], true, [[0, 0, 0]]⟩ (SetColors 1 [1, 2, 3]) = .blocked ∧
    run ⟨1, [0, 0, 0], true, [[0, 0, 0]]⟩ Sync = .blocked ∧
    runEvents ⟨1, [0, 0, 0], true, [[0, 0, 0]]⟩ (.reader :: Sync.map Event.caller) =
      .ok ⟨1, [0, 0, 0], true, [[0, 0, 0], [0, 0, 0]]⟩ :=
  ⟨⟨rfl, by decide⟩, (Sync_needs_reader idle1 [1, 2, 3] rfl (by decide)).2.2.1,
    (Sync_needs_reader idle1 [1, 2, 3] rfl (by decide)).2.2.2.1,
    (Sync_needs_reader idle1 [1, 2, 3] rfl (by decide)).2.2.2.2.2.2.1⟩

/-- C10: from the state `New` builds, after any finite sequence of `SetColors`
calls with arbitrary buffers, `Sync` calls and playbacks of arbitrary
animations, with the reader free to run in between, `np.leds` is unchanged, the
colour buffer has length `np.leds*3`, and so has every buffer sent on
`np.Out`. -/
theorem length_invariant (leds : Int) (openErr : Bool) (np0 np : NeoPixel)
    (h0 : New leds openErr = some np0) (hr : Reachable np0 np) :
    np.leds = leds ∧ (np.Colors.length : Int) = ledBytes leds ∧
    ∀ b ∈ np.Out, (b.length : Int) = ledBytes leds := by
  induction hr with
  | start =>
    unfold New at h0
    cases openErr
    · by_cases g : ledBytes leds < 0
      · simp [g] at h0
      · simp [g] at h0
        rw [← h0]
        refine ⟨rfl, ?_, ?_⟩
        · simp only [List.length_replicate]
          exact Int.toNat_of_nonneg (not_lt.mp g)
        · intro b hb; simp at hb
    · simp at h0
  | call st st1 c es _ he hrun ih =>
    obtain ⟨i1, i2, i3⟩ := ih
    obtain ⟨g1, g2, g3⟩ := runEvents_ok st st1 es hrun
    have hp : (st.Colors.length : Int) = ledBytes st.leds := by rw [i1]; exact i2
    rw [he] at g2 g3
    refine ⟨by rw [g1, i1], ?_, ?_⟩
    · cases c with
      | SetColors b =>
        simp only [Call.code, colorsAfter_SetColors] at g2
        rw [g2]
        split
        · rename_i hb; rw [hb, i1]
        · exact i2
      | Sync =>
        simp only [Call.code, colorsAfter_Sync] at g2
        rw [g2]; exact i2
      | Play a =>
        simp only [Call.code, colorsAfter_animator, hp, if_true] at g2
        rw [g2]; exact i2
    · intro b hb
      rw [g3, List.mem_append] at hb
      rcases hb with hb | hb
      · exact i3 b hb
      · cases c with
        | SetColors b1 =>
          simp [Call.code, writes_SetColors] at hb
        | Sync =>
          simp only [Call.code, writes_Sync, List.mem_singleton] at hb
          rw [hb]; exact i2
        | Play a =>
          simp only [Call.code, writes_animator, hp, if_true, List.mem_append,
            List.mem_singleton] at hb
          rcases hb with hb | hb
          · rw [← i1]
            exact loopShown_length_mem st.leds a.Frames st.Colors a.Loop.toNat hp b hb
          · rw [hb]; exact i2

/-- C10 at a concrete input: one led; the reader releases the mutex, then
`SetColors([1, 2, 3])`, then the animation `mixed`. -/
theorem length_invariant_witness :
    (New 1 false = some afterNew1 ∧
      Reachable afterNew1 ⟨1, [1, 2, 3], true, [[9, 9, 9], [9, 9, 9], [1, 2, 3]]⟩) ∧
    (([1, 2, 3] : Leds).length : Int) = ledBytes 1 :=
  have hr : Reachable afterNew1 ⟨1, [1, 2, 3], true, [[9, 9, 9], [9, 9, 9], [1, 2, 3]]⟩ :=
    Reachable.call ⟨1, [1, 2, 3], false, []⟩ _ (.Play mixed)
      (withAcks false (animator ⟨1, [1, 2, 3], false, []⟩ mixed))
      (Reachable.call afterNew1 _ (.SetColors [1, 2, 3])
        (withAcks true (SetColors 1 [1, 2, 3])) Reachable.start (by decide) (by decide))
      (by decide) (by decide)
  ⟨⟨by decide, hr⟩, (length_invariant 1 false afterNew1 _ (by decide) hr).2.1⟩

end Buildlight
